import Mathlib

/-!
Verification of the napstir extractor-resolution and argument-composition
pipeline.  The definitions below are a shallow embedding of the Python source
(`src/main.py`, `src/cli.py`, `src/utils.py`): pure functions become Lean
functions, the mutable `Config`/store state is passed explicitly, the
interactive `click.confirm` prompt is an injected decision oracle
`answers : Nat → Bool` (indexed by the number of prompts issued so far), and
code that can raise a Python exception returns `Option`.
-/

/-! ### Models of the Python string primitives used by the source -/

/-- Model of Python `s.startswith(pre)` (comparison on code points). -/
def pyStartsWith (s pre : String) : Bool :=
  pre.toList.isPrefixOf s.toList

/-- Helper for `pyIn`: is `n` a contiguous sublist of the second argument? -/
def subAux (n : List Char) : List Char → Bool
  | [] => n.isPrefixOf []
  | c :: cs => n.isPrefixOf (c :: cs) || subAux n cs

/-- Model of Python `needle in haystack` on strings (substring containment). -/
def pyIn (needle haystack : String) : Bool :=
  subAux needle.toList haystack.toList

/-- Model of Python `s[n:]` (drop the first `n` code points). -/
def pyDrop (s : String) (n : Nat) : String :=
  ⟨s.toList.drop n⟩

/-- ASCII lower-casing of one character, as Python `str.lower` does on the
basic latin letters appearing in this program's data. -/
def lowerChar (c : Char) : Char :=
  if 65 ≤ c.toNat ∧ c.toNat ≤ 90 then Char.ofNat (c.toNat + 32) else c

/-- Model of Python `s.lower()`. -/
def pyLower (s : String) : String :=
  ⟨s.toList.map lowerChar⟩

/-- Model of Python truthiness of an optional string (`if x:`): `None` and the
empty string are falsy. -/
def truthy : Option String → Bool
  | none => false
  | some s => s != ""

/-- Helper for `pySplit`: split on whitespace runs, accumulator holds the
current word reversed. -/
def splitWsAux : List Char → List Char → List String
  | acc, [] => if acc = [] then [] else [⟨acc.reverse⟩]
  | acc, c :: cs =>
    if c.isWhitespace then
      if acc = [] then splitWsAux [] cs else ⟨acc.reverse⟩ :: splitWsAux [] cs
    else splitWsAux (c :: acc) cs

/-- Model of Python `s.split()` with no argument: split on whitespace runs,
discarding empty pieces. -/
def pySplit (s : String) : List String :=
  splitWsAux [] s.toList

/-! ### Model of Python `dict` (insertion-ordered, update-in-place) -/

/-- `d[k] = v` on an insertion-ordered dictionary: update in place if the key
exists, else append. -/
def dictInsert (d : List (String × α)) (k : String) (v : α) : List (String × α) :=
  if d.any (fun p => p.1 == k) then
    d.map (fun p => if p.1 == k then (k, v) else p)
  else d ++ [(k, v)]

/-- `d.get(k)` returning `none` when absent. -/
def dictLookup (d : List (String × α)) (k : String) : Option α :=
  (d.find? (fun p => p.1 == k)).map (fun p => p.2)

/-- `k in d`. -/
def dictContains (d : List (String × α)) (k : String) : Bool :=
  d.any (fun p => p.1 == k)

/-- Sequential effectful map over `Option` (a Python loop building a list,
where the first exception aborts the whole computation). -/
def optTraverse (f : α → Option β) : List α → Option (List β)
  | [] => some []
  | a :: as => (f a).bind (fun b => (optTraverse f as).map (fun bs => b :: bs))

/-! ### Data model (`ExtractorConfig`, store, `Metadata`) -/

/-- `ExtractorConfig` dataclass (`src/main.py` lines 21-33 and the identical
`src/cli.py` lines 17-29), after `__post_init__` has run. -/
structure ExtractorConfig where
  id : String
  aliases : List String
  args : List String
deriving Repr, DecidableEq

/-- The dataclass constructor including `__post_init__`: the id and every
alias are lower-cased. -/
def ExtractorConfig.make (id : String) (aliases args : List String) : ExtractorConfig :=
  ⟨pyLower id, aliases.map pyLower, args⟩

/-- `ExtractorConfig.add_alias`: append unless already present. -/
def ExtractorConfig.add_alias (cfg : ExtractorConfig) (a : String) : ExtractorConfig :=
  if a ∈ cfg.aliases then cfg else { cfg with aliases := cfg.aliases ++ [a] }

/-- The mutable profile-store part of `Config`: the `extractor_configs` dict
(profile id → config) and the `aliased_extractors` dict (alias → profile id),
both insertion-ordered. -/
structure Store where
  extractor_configs : List (String × ExtractorConfig)
  aliased_extractors : List (String × String)
deriving Repr, DecidableEq

/-- One raw `[extractor.<id>]` entry of the TOML config file, before any
lower-casing. -/
structure RawExtractor where
  id : String
  aliases : List String
  args : List String
deriving Repr, DecidableEq

/-- The store-building loop of `Config.__init__` (`src/main.py` lines 61-68,
`src/cli.py` lines 59-68): skip `default`/`global`, key each config by its
lower-cased id, and register every alias. -/
def buildStore (raws : List RawExtractor) : Store :=
  raws.foldl
    (fun store raw =>
      if raw.id == "default" || raw.id == "global" then store
      else
        let cfg := ExtractorConfig.make raw.id raw.aliases raw.args
        { extractor_configs := dictInsert store.extractor_configs (pyLower raw.id) cfg,
          aliased_extractors :=
            cfg.aliases.foldl (fun d a => dictInsert d a cfg.id) store.aliased_extractors })
    ⟨[], []⟩

/-- `Metadata` dataclass of `src/main.py` (url, source tag, per-URL options,
classification result, classification error). -/
structure Metadata where
  url : String
  src : String
  options : List String
  extractor : Option String
  error : Option String
deriving Repr, DecidableEq

/-- One step of the audio-shorthand rewrite of `Metadata.__post_init__` in
`src/main.py` (lines 112-122): `-a`/`-a:<fmt>` become the long-form flags,
everything else is passed through. -/
def convertOpt (opt : String) : List String :=
  if opt == "-a" || pyStartsWith opt "-a:" then
    if pyIn ":" opt && pyDrop opt 3 != "" then
      ["--extract-audio", "--audio-format", pyDrop opt 3]
    else ["--extract-audio"]
  else [opt]

/-- The whole rewrite loop of `Metadata.__post_init__` in `src/main.py`. -/
def convertOpts (opts : List String) : List String :=
  opts.flatMap convertOpt

/-- One step of the rewrite loop of `Metadata.__post_init__` in `src/cli.py`
(lines 115-123): the `else` branch of the `src/main.py` version is absent, so
a non-shorthand token contributes nothing. -/
def convertOptCli (opt : String) : List String :=
  if opt == "-a" || pyStartsWith opt "-a:" then
    if pyIn ":" opt && pyDrop opt 3 != "" then
      ["--extract-audio", "--audio-format", pyDrop opt 3]
    else ["--extract-audio"]
  else []

/-- The whole rewrite loop of `Metadata.__post_init__` in `src/cli.py`. -/
def convertOptsCli (opts : List String) : List String :=
  opts.flatMap convertOptCli

/-- The `Metadata` dataclass constructor of `src/main.py` including
`__post_init__`. -/
def Metadata.make (url src : String) (opts : List String)
    (extractor error : Option String) : Metadata :=
  ⟨url, src, convertOpts opts, extractor, error⟩

/-- The `Metadata.id` property: `self.extractor.lower() if self.extractor
else None` (Python truthiness: a `None` or empty extractor gives `None`). -/
def Metadata.id (md : Metadata) : Option String :=
  match md.extractor with
  | some e => if e != "" then some (pyLower e) else none
  | none => none

/-! ### Classification-output parsing and Record creation (`src/main.py`) -/

/-- The parsing of the engine's classification output in
`Cli.create_metadatas` (`src/main.py` lines 177-189).  Returns
`(extractor?, error?)`; `none` models the `IndexError`/`ValueError` the
Python raises on a malformed `ERROR` output. -/
def parseOutput (output : String) : Option (Option String × Option String) :=
  let cs := output.toList
  if pyStartsWith output "ERROR" then
    match cs.get? 7 with
    | none => none
    | some c =>
      if c ≠ '[' then some (none, some ⟨cs.drop 7⟩)
      else
        match (cs.drop 8).findIdx? (fun d => d = ']') with
        | none => none
        | some j => some (some ⟨(cs.drop 8).take j⟩, none)
  else some (some output, none)

/-- Keep a batch-input line: skip blank lines and `#` comments
(`src/main.py` line 167, `src/cli.py` line 155). -/
def keepLine (l : String) : Bool :=
  !(l == "" || pyStartsWith l "#")

/-- Split each surviving line into `(per-URL option tokens, URL)`; the URL is
the last whitespace-delimited token.  `none` models the `IndexError` of
`parts[-1]` on a whitespace-only line. -/
def parsedEntries (lines : List String) : Option (List (List String × String)) :=
  optTraverse
    (fun l =>
      match (pySplit l).getLast? with
      | none => none
      | some url => some ((pySplit l).dropLast, url))
    (lines.filter keepLine)

/-- The batched strategy of `Cli.create_metadatas` in `src/main.py` (lines
163-192): a first pass stores each line's options in the `url_opts` dict
keyed by URL and queues one classification task per line; the gathered
results are then turned into `Metadata`s in line order, each reading its
options back from `url_opts`. -/
def batchedOf (classify : String → String) (src : String)
    (ps : List (List String × String)) : Option (List Metadata) :=
  let urlOpts := ps.foldl (fun d p => dictInsert d p.2 p.1) []
  optTraverse
    (fun p =>
      (parseOutput (classify p.2)).map
        (fun r => Metadata.make p.2 src ((dictLookup urlOpts p.2).getD []) r.1 r.2))
    ps

/-- Batched Record creation on raw input lines. -/
def batchedCreate (classify : String → String) (src : String)
    (lines : List String) : Option (List Metadata) :=
  (parsedEntries lines).bind (batchedOf classify src)

/-- Modelled from the spec: the one-URL-at-a-time classification strategy of
§4.4 step 3 / §5 — each surviving line is classified on its own and keeps its
own option tokens.  (The sequential revision `src/cli.py` delegates its
classification to `determine_extractor`, which is imported from `utils` but
absent from `src/utils.py`.) -/
def seqOf (classify : String → String) (src : String)
    (ps : List (List String × String)) : Option (List Metadata) :=
  optTraverse
    (fun p =>
      (parseOutput (classify p.2)).map
        (fun r => Metadata.make p.2 src p.1 r.1 r.2))
    ps

/-- Sequential Record creation on raw input lines. -/
def seqCreate (classify : String → String) (src : String)
    (lines : List String) : Option (List Metadata) :=
  (parsedEntries lines).bind (seqOf classify src)

/-! ### Extractor resolution (`Cli.get_extractors`, `src/main.py` 207-232) -/

/-- The store mutation performed on a confirmed fuzzy match: the lowercased
extractor id is added to the matched config's alias list and to the
`aliased_extractors` dict. -/
def registerAlias (store : Store) (cid mdId : String) : Store :=
  { extractor_configs :=
      store.extractor_configs.map
        (fun p => if p.1 == cid then (p.1, p.2.add_alias mdId) else p),
    aliased_extractors := dictInsert store.aliased_extractors mdId cid }

/-- Result of the fuzzy-match loop: the store, the number of prompts issued
so far, the candidate ids offered (in order), and the confirmed candidate if
the loop was left by `break`. -/
structure FuzzyResult where
  store : Store
  k : Nat
  offered : List String
  matched : Option String
deriving Repr, DecidableEq

/-- The substring-candidate loop of `Cli.get_extractors` (`src/main.py` lines
217-226): every profile id that is a substring of the lowercased extractor id
is offered; on confirmation the alias is registered and the loop breaks; on
decline the loop continues with the next candidate. -/
def fuzzyLoop (answers : Nat → Bool) (mdId : String) :
    List (String × ExtractorConfig) → Store → Nat → FuzzyResult
  | [], store, k => ⟨store, k, [], none⟩
  | (cid, _) :: rest, store, k =>
    if pyIn cid mdId then
      if answers k then
        ⟨registerAlias store cid mdId, k + 1, [cid], some cid⟩
      else
        let r := fuzzyLoop answers mdId rest store (k + 1)
        ⟨r.store, r.k, cid :: r.offered, r.matched⟩
    else fuzzyLoop answers mdId rest store k

/-- Result of resolving one record: the store afterwards, the prompt counter
afterwards, and the candidates offered for this record. -/
structure StepResult where
  store : Store
  k : Nat
  offered : List String
deriving Repr, DecidableEq

/-- The per-record body of `Cli.get_extractors` (`src/main.py` lines
210-228): skip records with a truthy error, skip exact profile-id matches and
known aliases, otherwise run the fuzzy loop and finally register the id as an
alias of `"default"` when still unmatched.  `none` models the `TypeError`
Python raises on `cid in metadata.id` when `metadata.id` is `None` (with an
empty store it would instead record a `None` key, which this String-keyed
model cannot represent); such records do not arise from `create_metadatas`. -/
def resolveStep (answers : Nat → Bool) (store : Store) (k : Nat)
    (md : Metadata) : Option StepResult :=
  if truthy md.error then some ⟨store, k, []⟩
  else
    match Metadata.id md with
    | none => none
    | some mid =>
      if dictContains store.extractor_configs mid then some ⟨store, k, []⟩
      else if dictContains store.aliased_extractors mid then some ⟨store, k, []⟩
      else
        let r := fuzzyLoop answers mid store.extractor_configs store k
        let s' :=
          if dictContains r.store.aliased_extractors mid then r.store
          else
            { r.store with
              aliased_extractors := dictInsert r.store.aliased_extractors mid "default" }
        some ⟨s', r.k, r.offered⟩

/-- The whole resolution pass of `Cli.get_extractors` over the record list,
threading the store and the prompt counter. -/
def resolveAll (answers : Nat → Bool) : Store → Nat → List Metadata → Option (Store × Nat)
  | store, k, [] => some (store, k)
  | store, k, md :: rest =>
    match resolveStep answers store k md with
    | none => none
    | some r => resolveAll answers r.store r.k rest

/-- The final pairing of `Cli.get_extractors` (`src/main.py` lines 229-231):
`self.config.aliased_extractors.get(md.id, md.id)` on the store left by the
resolution pass. -/
def getExtractorsList (store : Store) (mds : List Metadata) :
    List (Metadata × Option String) :=
  mds.map
    (fun md =>
      (md,
        match Metadata.id md with
        | some mid => some ((dictLookup store.aliased_extractors mid).getD mid)
        | none => none))

/-! ### Restricted-flag filtering (`src/utils.py` 107-119) -/

/-- The restricted-flag table of `src/cli.py` (lines 91-101), verbatim. -/
def RESTRICTED_ARGS : List String :=
  ["-h", "--help", "-U", "--update--update-to", "--no-ignore-no-formats-error",
   "--newline", "--no-progress", "-a", "--batch-file"]

/-- The loop body of `sanitize_args` with the `skip_args` flag made explicit:
a leading `-` clears the flag, a skipped token is dropped, a restricted token
sets the flag and is dropped, every other token is kept. -/
def sanitizeGo (restricted : List String) : Bool → List String → List String
  | _, [] => []
  | skip, a :: as =>
    let skip1 := if pyStartsWith a "-" then false else skip
    if skip1 then sanitizeGo restricted skip1 as
    else if a ∈ restricted then sanitizeGo restricted true as
    else a :: sanitizeGo restricted false as

/-- `sanitize_args` of `src/utils.py` (lines 107-119). -/
def sanitize_args (raw_args restricted_args : List String) : List String :=
  sanitizeGo restricted_args false raw_args

/-- The restricted-flag filter as the spec words it: a restricted token is
removed together with every following token up to (but not including) the
next token beginning with `-`; all other tokens are kept in order. -/
def sanitizeSpec (restricted : List String) : List String → List String
  | [] => []
  | a :: as =>
    if a ∈ restricted then
      sanitizeSpec restricted (as.dropWhile (fun t => !pyStartsWith t "-"))
    else a :: sanitizeSpec restricted as
termination_by l => l.length
decreasing_by
  · simpa using Nat.lt_succ_of_le ((List.dropWhile_sublist _).length_le)
  · simp

/-! ### Argument composition -/

/-- The `["--paths", dir]` segment `Cli.process` inserts after the global
args when an output directory is configured (`src/cli.py` lines 174-175;
`if self.config.output_dir:` is a Python truthiness test, so an absent or
empty directory inserts nothing). -/
def pathsSeg : Option String → List String
  | some d => if d ≠ "" then ["--paths", d] else []
  | none => []

/-- The argument sequence composed by `Cli.process` in `src/cli.py` (lines
173-180) before `sanitize_args` is applied: global args, then the
output-directory segment, then the resolved profile's args (or the default
profile's), then the record's per-URL args.  `none` models the `KeyError` on
a resolved profile id absent from `extractor_configs`. -/
def composeProcessArgs (global_args default_args : List String)
    (output_dir : Option String) (configs : List (String × ExtractorConfig))
    (config_extractor : Option String) (mdArgs : List String) :
    Option (List String) :=
  let args := global_args ++ pathsSeg output_dir
  match config_extractor with
  | none => some (args ++ default_args ++ mdArgs)
  | some ce => (dictLookup configs ce).map (fun cfg => args ++ cfg.args ++ mdArgs)

/-- The engine argument list built by `Cli.download` in `src/main.py` (lines
243-251), after the fixed `uv … run yt_dlp` interpreter prefix: global args,
then the chosen profile's args (the default profile's when the resolved id is
`"default"`), then the record's options, then `-v` when verbose, then the
URL.  `none` models the `KeyError` on an unknown profile id. -/
def downloadArgs (global_args default_args : List String) (store : Store)
    (verbose : Bool) (md : Metadata) (extractor_id : String) :
    Option (List String) :=
  let tail := md.options ++ (if verbose then ["-v"] else []) ++ [md.url]
  if extractor_id == "default" then some (global_args ++ default_args ++ tail)
  else
    (dictLookup store.extractor_configs extractor_id).map
      (fun cfg => global_args ++ cfg.args ++ tail)

/-! ### The report/download loop of `Cli.main` (`src/main.py` 254-265) -/

/-- What `Cli.main` does with one record: report the error text, or announce
and invoke the download. -/
inductive MainAction where
  | report (extractor : Option String) (url : String) (error : String)
  | download (extractor : Option String) (url : String)
deriving Repr, DecidableEq

/-- The final loop of `Cli.main`: records with a truthy error are reported
and never downloaded; all others are downloaded. -/
def mainActions (pairs : List (Metadata × Option String)) : List MainAction :=
  pairs.map
    (fun p =>
      if truthy p.1.error then MainAction.report p.1.extractor p.1.url (p.1.error.getD "")
      else MainAction.download p.1.extractor p.1.url)

/-! ### Claim-side reference for the audio-shorthand rewrite -/

/-- The audio-shorthand rewrite exactly as claim C2 words it: `-a` maps to
`--extract-audio`; `-a:<fmt>` with non-empty format maps to the three tokens;
`-a:` maps to `--extract-audio` alone; every other token passes through. -/
def audioRewriteSpec (t : String) : List String :=
  if t = "-a" then ["--extract-audio"]
  else if pyStartsWith t "-a:" then
    if pyDrop t 3 = "" then ["--extract-audio"]
    else ["--extract-audio", "--audio-format", pyDrop t 3]
  else [t]

/-! ### The lower-case store invariant (claim C10) -/

/-- A string that is already lower-case: a fixed point of `pyLower`. -/
def isLowerStr (s : String) : Prop := pyLower s = s

/-- The store invariant of claim C10: every profile-dict key, every profile
id, every alias string in a profile's alias list, and every key of the
`aliased_extractors` lookup table is lower-case. -/
def StoreWF (store : Store) : Prop :=
  (∀ p ∈ store.extractor_configs,
      isLowerStr p.1 ∧ isLowerStr p.2.id ∧ ∀ a ∈ p.2.aliases, isLowerStr a) ∧
  ∀ q ∈ store.aliased_extractors, isLowerStr q.1

/-! ## Helper lemmas -/

theorem find?_map_update_self (t : List (String × α)) (k : String) (v : α) :
    List.find? (fun q => q.1 == k) (t.map (fun q => if q.1 == k then (k, v) else q)) =
      (List.find? (fun q => q.1 == k) t).map (fun _ => (k, v)) := by
  rw [List.find?_map]
  have hpf : ((fun q : String × α => q.1 == k) ∘ fun q => if q.1 == k then (k, v) else q) =
      fun q : String × α => q.1 == k := by
    funext q
    by_cases hq : q.1 = k
    · simp [hq]
    · simp [hq]
  rw [hpf]
  cases hw : t.find? (fun q => q.1 == k) with
  | none => rfl
  | some w =>
    have hw1 : w.1 = k := by simpa using List.find?_some hw
    simp [hw1]

theorem find?_map_update_ne (t : List (String × α)) (k k' : String) (v : α)
    (h : k' ≠ k) :
    List.find? (fun q => q.1 == k') (t.map (fun q => if q.1 == k then (k, v) else q)) =
      List.find? (fun q => q.1 == k') t := by
  rw [List.find?_map]
  have hpf : ((fun q : String × α => q.1 == k') ∘ fun q => if q.1 == k then (k, v) else q) =
      fun q : String × α => q.1 == k' := by
    funext q
    by_cases hq : q.1 = k
    · simp [hq]
    · simp [hq]
  rw [hpf]
  cases hw : t.find? (fun q => q.1 == k') with
  | none => rfl
  | some w =>
    have hw1 : w.1 = k' := by simpa using List.find?_some hw
    have hwk : ¬w.1 = k := by
      rw [hw1]
      exact h
    simp [hwk]

theorem dictLookup_insert_self (d : List (String × α)) (k : String) (v : α) :
    dictLookup (dictInsert d k v) k = some v := by
  by_cases hd : d.any (fun p => p.1 == k)
  · simp only [dictInsert, hd, if_true, dictLookup, find?_map_update_self]
    have hsome : (d.find? (fun p => p.1 == k)).isSome := by
      rw [List.find?_isSome]
      simpa [List.any_eq_true] using hd
    obtain ⟨w, hw⟩ := Option.isSome_iff_exists.mp hsome
    rw [hw]
    rfl
  · have hd' : d.any (fun p => p.1 == k) = false := Bool.eq_false_iff.mpr hd
    have hnone : d.find? (fun p => p.1 == k) = none := by
      rw [List.find?_eq_none]
      intro x hx
      rw [List.any_eq_false] at hd'
      exact hd' x hx
    simp [dictInsert, hd', dictLookup, List.find?_append, hnone, List.find?_cons]

theorem dictLookup_insert_ne (d : List (String × α)) (k k' : String) (v : α)
    (h : k' ≠ k) : dictLookup (dictInsert d k v) k' = dictLookup d k' := by
  have hkk : (k == k') = false := beq_eq_false_iff_ne.mpr (Ne.symm h)
  by_cases hd : d.any (fun p => p.1 == k)
  · simp only [dictInsert, hd, if_true, dictLookup, find?_map_update_ne _ _ _ _ h]
  · have hd' : d.any (fun p => p.1 == k) = false := Bool.eq_false_iff.mpr hd
    simp [dictInsert, hd', dictLookup, List.find?_append, List.find?_cons, hkk]

theorem dictLookup_eq_none_of_not_contains (d : List (String × α)) (k : String)
    (h : dictContains d k = false) : dictLookup d k = none := by
  simp only [dictContains] at h
  rw [List.any_eq_false] at h
  have hnone : d.find? (fun p => p.1 == k) = none := by
    rw [List.find?_eq_none]
    intro x hx
    exact h x hx
  simp [dictLookup, hnone]

theorem mem_dictInsert (d : List (String × α)) (k : String) (v : α) (q : String × α)
    (h : q ∈ dictInsert d k v) : q = (k, v) ∨ q ∈ d := by
  by_cases hd : d.any (fun p => p.1 == k)
  · simp only [dictInsert, hd, if_true, List.mem_map] at h
    obtain ⟨p, hp, hq⟩ := h
    by_cases hpk : p.1 = k
    · left
      rw [← hq, if_pos (by simpa using hpk)]
    · right
      rw [← hq, if_neg (by simpa using hpk)]
      exact hp
  · have hd' : d.any (fun p => p.1 == k) = false := Bool.eq_false_iff.mpr hd
    simp only [dictInsert, hd', Bool.false_eq_true, if_false, List.mem_append,
      List.mem_singleton] at h
    exact h.symm

theorem sanitizeGo_false_cons (R : List String) (a : String) (as : List String) :
    sanitizeGo R false (a :: as) =
      if a ∈ R then sanitizeGo R true as else a :: sanitizeGo R false as := by
  simp [sanitizeGo]

theorem sanitizeGo_true_cons (R : List String) (a : String) (as : List String) :
    sanitizeGo R true (a :: as) =
      if pyStartsWith a "-" then
        if a ∈ R then sanitizeGo R true as else a :: sanitizeGo R false as
      else sanitizeGo R true as := by
  by_cases hd : pyStartsWith a "-" <;> simp [sanitizeGo, hd]

theorem sanitizeGo_skip (R : List String) : ∀ as : List String,
    sanitizeGo R true as =
      sanitizeGo R false (as.dropWhile (fun t => !pyStartsWith t "-")) := by
  intro as
  induction as with
  | nil => rfl
  | cons b bs ih =>
    by_cases hd : pyStartsWith b "-"
    · have hb : List.dropWhile (fun t => !pyStartsWith t "-") (b :: bs) = b :: bs := by
        rw [List.dropWhile_cons, if_neg]
        simp [hd]
      rw [hb, sanitizeGo_true_cons, if_pos hd, sanitizeGo_false_cons]
    · have hb : List.dropWhile (fun t => !pyStartsWith t "-") (b :: bs) =
          List.dropWhile (fun t => !pyStartsWith t "-") bs := by
        rw [List.dropWhile_cons, if_pos]
        simp [hd]
      rw [hb, sanitizeGo_true_cons, if_neg hd, ih]

theorem sanitizeGo_false_eq_spec (R : List String) :
    ∀ (n : Nat) (l : List String), l.length ≤ n →
      sanitizeGo R false l = sanitizeSpec R l := by
  intro n
  induction n with
  | zero =>
    intro l hl
    rw [List.length_eq_zero.mp (Nat.le_zero.mp hl)]
    simp [sanitizeGo, sanitizeSpec]
  | succ n ih =>
    intro l hl
    match l with
    | [] => simp [sanitizeGo, sanitizeSpec]
    | a :: as =>
      have has : as.length ≤ n := by
        simpa using Nat.le_of_succ_le_succ hl
      by_cases ha : a ∈ R
      · rw [sanitizeGo_false_cons, if_pos ha, sanitizeGo_skip,
          ih _ (Nat.le_trans ((List.dropWhile_sublist _).length_le) has)]
        rw [sanitizeSpec, if_pos ha]
      · rw [sanitizeGo_false_cons, if_neg ha, ih as has]
        rw [sanitizeSpec, if_neg ha]

theorem sanitizeGo_sublist (R : List String) : ∀ (l : List String) (skip : Bool),
    (sanitizeGo R skip l).Sublist l := by
  intro l
  induction l with
  | nil =>
    intro skip
    simp [sanitizeGo]
  | cons a as ih =>
    intro skip
    cases skip
    · rw [sanitizeGo_false_cons]
      by_cases hm : a ∈ R
      · rw [if_pos hm]
        exact (ih true).cons a
      · rw [if_neg hm]
        exact (ih false).cons₂ a
    · rw [sanitizeGo_true_cons]
      by_cases hd : pyStartsWith a "-"
      · rw [if_pos hd]
        by_cases hm : a ∈ R
        · rw [if_pos hm]
          exact (ih true).cons a
        · rw [if_neg hm]
          exact (ih false).cons₂ a
      · rw [if_neg hd]
        exact (ih true).cons a

theorem not_mem_restricted_of_mem_sanitizeGo (R : List String) :
    ∀ (l : List String) (skip : Bool) (a : String), a ∈ sanitizeGo R skip l → a ∉ R := by
  intro l
  induction l with
  | nil =>
    intro skip a h
    simp [sanitizeGo] at h
  | cons b bs ih =>
    intro skip a h
    cases skip
    · rw [sanitizeGo_false_cons] at h
      by_cases hm : b ∈ R
      · rw [if_pos hm] at h
        exact ih true a h
      · rw [if_neg hm] at h
        rcases List.mem_cons.mp h with rfl | h2
        · exact hm
        · exact ih false a h2
    · rw [sanitizeGo_true_cons] at h
      by_cases hd : pyStartsWith b "-"
      · rw [if_pos hd] at h
        by_cases hm : b ∈ R
        · rw [if_pos hm] at h
          exact ih true a h
        · rw [if_neg hm] at h
          rcases List.mem_cons.mp h with rfl | h2
          · exact hm
          · exact ih false a h2
      · rw [if_neg hd] at h
        exact ih true a h

theorem sanitizeGo_eq_self (R : List String) :
    ∀ l : List String, (∀ a ∈ l, a ∉ R) → sanitizeGo R false l = l := by
  intro l
  induction l with
  | nil =>
    intro h
    rfl
  | cons a as ih =>
    intro h
    rw [sanitizeGo_false_cons, if_neg (h a (List.mem_cons_self a as)),
      ih (fun b hb => h b (List.mem_cons_of_mem a hb))]

/-- C6: for every token sequence, `sanitize_args` with the fixed
`RESTRICTED_ARGS` table removes each restricted token together with every
following token up to (but not including) the next token beginning with `-`
(this is what `sanitizeSpec` computes), and keeps all other tokens unchanged
and in their original order (the output is a sublist of the input); the
function is total, so no error is ever raised or reported. -/
theorem claim_C6_theorem (args : List String) :
    sanitize_args args RESTRICTED_ARGS = sanitizeSpec RESTRICTED_ARGS args ∧
      (sanitize_args args RESTRICTED_ARGS).Sublist args :=
  ⟨sanitizeGo_false_eq_spec RESTRICTED_ARGS args.length args (Nat.le_refl _),
    sanitizeGo_sublist RESTRICTED_ARGS args false⟩

/-- C7: restricted-flag filtering is idempotent — for every token sequence
and every restricted-flag list, filtering an already-filtered sequence
yields it unchanged. -/
theorem claim_C7_theorem (args restricted : List String) :
    sanitize_args (sanitize_args args restricted) restricted =
      sanitize_args args restricted :=
  sanitizeGo_eq_self restricted _
    (fun a ha => not_mem_restricted_of_mem_sanitizeGo restricted args false a ha)

theorem pyIn_colon_of_startsWith (t : String) (h : pyStartsWith t "-a:" = true) :
    pyIn ":" t = true := by
  unfold pyStartsWith at h
  match hl : t.toList with
  | [] => rw [hl] at h; simp [List.isPrefixOf] at h
  | c1 :: rest1 =>
    rw [hl] at h
    match rest1 with
    | [] => simp [List.isPrefixOf] at h
    | c2 :: rest2 =>
      match rest2 with
      | [] => simp [List.isPrefixOf] at h
      | c3 :: rest3 =>
        have h3 : c3 = ':' := by
          simp only [show ("-a:").toList = ['-', 'a', ':'] from rfl,
            List.isPrefixOf, Bool.and_eq_true, beq_iff_eq] at h
          exact h.2.2.1.symm
        unfold pyIn
        rw [hl, h3]
        simp [subAux, List.isPrefixOf]

theorem convertOpt_eq_audioRewriteSpec (t : String) :
    convertOpt t = audioRewriteSpec t := by
  by_cases h1 : t = "-a"
  · subst h1
    rfl
  · by_cases h2 : pyStartsWith t "-a:" = true
    · have hcolon := pyIn_colon_of_startsWith t h2
      have h1' : (t == "-a") = false := beq_eq_false_iff_ne.mpr h1
      by_cases h3 : pyDrop t 3 = ""
      · simp [convertOpt, audioRewriteSpec, h1, h1', h2, hcolon, h3]
      · simp [convertOpt, audioRewriteSpec, h1, h1', h2, hcolon, h3]
    · have h1' : (t == "-a") = false := beq_eq_false_iff_ne.mpr h1
      have h2' : pyStartsWith t "-a:" = false := Bool.eq_false_iff.mpr h2
      simp [convertOpt, audioRewriteSpec, h1, h1', h2']

/-- C2: the audio-shorthand rewrite as claim C2 states it holds for the
`src/main.py` version (`convertOpts` maps each token by `audioRewriteSpec`:
`-a` and `-a:` become `--extract-audio`, `-a:<fmt>` becomes the three tokens,
and every other token passes through unchanged in order), but the
`src/cli.py` version (`convertOptsCli`) lacks the pass-through branch and
drops every non-shorthand token: on the whole-claim's failing input
`["--embed-thumbnail"]` it returns `[]` where the claim requires
`["--embed-thumbnail"]`. -/
theorem claim_C2_theorem :
    convertOptsCli ["--embed-thumbnail"] = [] ∧
      convertOpts ["--embed-thumbnail"] = ["--embed-thumbnail"] ∧
      ∀ opts : List String, convertOpts opts = opts.flatMap audioRewriteSpec :=
  ⟨by decide, by decide,
    fun opts => by
      unfold convertOpts List.flatMap
      rw [List.map_congr_left (fun t _ => convertOpt_eq_audioRewriteSpec t)]⟩

/-- C3 fails as stated: with an output directory configured, `Cli.process`
inserts `["--paths", <dir>]` between the global args and the profile/default
args, so the pre-filter composed sequence is not the bare three-segment
concatenation. -/
theorem claim_C3_counterexample :
    composeProcessArgs ["-g"] ["-d"] (some "out") [] none ["-x"] ≠
      some (["-g"] ++ ["-d"] ++ ["-x"]) := by
  decide

/-- C3 amended: the pre-filter sequence composed by `Cli.process` is exactly
`global.args`, then `["--paths", dir]` when an output directory is
configured (and nothing when it is not), then the resolved profile's args
(or the default profile's when no profile was resolved), then the per-URL
args, with nothing else inserted. -/
theorem claim_C3_amended (ga da : List String) (od : Option String)
    (cfgs : List (String × ExtractorConfig)) (mdArgs : List String) :
    composeProcessArgs ga da od cfgs none mdArgs =
      some (ga ++ pathsSeg od ++ da ++ mdArgs) ∧
    ∀ ce cfg, dictLookup cfgs ce = some cfg →
      composeProcessArgs ga da od cfgs (some ce) mdArgs =
        some (ga ++ pathsSeg od ++ cfg.args ++ mdArgs) := by
  constructor
  · simp [composeProcessArgs, List.append_assoc]
  · intro ce cfg hce
    simp [composeProcessArgs, hce, List.append_assoc]

theorem claim_C3_witness :
    composeProcessArgs ["-g"] ["-d"] (some "out")
        [("weird", ⟨"weird", [], ["-w"]⟩)] (some "weird") ["-x"] =
      some (["-g"] ++ pathsSeg (some "out") ++ ["-w"] ++ ["-x"]) :=
  (claim_C3_amended ["-g"] ["-d"] (some "out")
      [("weird", ⟨"weird", [], ["-w"]⟩)] ["-x"]).2
    "weird" ⟨"weird", [], ["-w"]⟩ (by decide)

theorem fuzzyLoop_all_declined (answers : Nat → Bool)
    (hdecl : ∀ n, answers n = false) (mdId : String) :
    ∀ (entries : List (String × ExtractorConfig)) (store : Store) (k : Nat),
      fuzzyLoop answers mdId entries store k =
        ⟨store, k + (entries.filter (fun p => pyIn p.1 mdId)).length,
          (entries.filter (fun p => pyIn p.1 mdId)).map (fun p => p.1), none⟩ := by
  intro entries
  induction entries with
  | nil =>
    intro store k
    simp [fuzzyLoop]
  | cons e rest ih =>
    intro store k
    obtain ⟨cid, cfg⟩ := e
    by_cases hs : pyIn cid mdId
    · rw [show fuzzyLoop answers mdId ((cid, cfg) :: rest) store k =
          (if pyIn cid mdId then
            if answers k then
              ⟨registerAlias store cid mdId, k + 1, [cid], some cid⟩
            else
              let r := fuzzyLoop answers mdId rest store (k + 1)
              ⟨r.store, r.k, cid :: r.offered, r.matched⟩
          else fuzzyLoop answers mdId rest store k) from rfl]
      rw [if_pos hs, hdecl k, ih store (k + 1)]
      simp only [if_false, Bool.false_eq_true]
      rw [List.filter_cons_of_pos (by simpa using hs)]
      simp only [List.length_cons, List.map_cons]
      congr 1
      omega
    · rw [show fuzzyLoop answers mdId ((cid, cfg) :: rest) store k =
          (if pyIn cid mdId then
            if answers k then
              ⟨registerAlias store cid mdId, k + 1, [cid], some cid⟩
            else
              let r := fuzzyLoop answers mdId rest store (k + 1)
              ⟨r.store, r.k, cid :: r.offered, r.matched⟩
          else fuzzyLoop answers mdId rest store k) from rfl]
      rw [if_neg hs, ih store k,
        List.filter_cons_of_neg (by simpa using hs)]

/-- C1 fails as stated: with profiles `a` and `b` (both substrings of the
lowercased extractor id `ab`), declining the first candidate `a` does not
stop matching — the second candidate `b` is offered and, on confirmation,
used and registered, instead of resolution falling through to the default. -/
theorem claim_C1_counterexample :
    resolveStep (fun n => n == 1)
        ⟨[("a", ⟨"a", [], []⟩), ("b", ⟨"b", [], []⟩)], []⟩ 0
        ⟨"u", "file", [], some "ab", none⟩ =
      some ⟨⟨[("a", ⟨"a", [], []⟩), ("b", ⟨"b", ["ab"], []⟩)], [("ab", "b")]⟩,
        2, ["a", "b"]⟩ := by
  decide

/-- C1 amended: when the operator declines a substring candidate the loop
continues with the remaining candidates in store order; only when every
substring candidate has been offered and declined does resolution fall
through to the default (every candidate id is offered, the store's profiles
are unchanged, and the extractor id is registered to `"default"`). -/
theorem claim_C1_amended (answers : Nat → Bool) (store : Store) (k : Nat)
    (md : Metadata) (mid : String)
    (hid : Metadata.id md = some mid)
    (herr : truthy md.error = false)
    (hex : dictContains store.extractor_configs mid = false)
    (hal : dictContains store.aliased_extractors mid = false)
    (hdecl : ∀ n, answers n = false) :
    resolveStep answers store k md =
      some ⟨⟨store.extractor_configs,
          dictInsert store.aliased_extractors mid "default"⟩,
        k + (store.extractor_configs.filter (fun p => pyIn p.1 mid)).length,
        (store.extractor_configs.filter (fun p => pyIn p.1 mid)).map (fun p => p.1)⟩ := by
  simp only [resolveStep, herr, hid, hex, hal, Bool.false_eq_true, if_false,
    fuzzyLoop_all_declined answers hdecl mid]

theorem claim_C1_witness :
    resolveStep (fun _ => false)
        ⟨[("a", ⟨"a", [], []⟩), ("b", ⟨"b", [], []⟩)], []⟩ 0
        ⟨"u", "file", [], some "ab", none⟩ =
      some ⟨⟨[("a", ⟨"a", [], []⟩), ("b", ⟨"b", [], []⟩)], [("ab", "default")]⟩,
        2, ["a", "b"]⟩ := by
  rw [claim_C1_amended (fun _ => false) _ 0 _ "ab" (by decide) (by decide)
    (by decide) (by decide) (fun _ => rfl)]
  decide

theorem fuzzyLoop_no_candidate (answers : Nat → Bool) (mdId : String) :
    ∀ (entries : List (String × ExtractorConfig)) (store : Store) (k : Nat),
      (∀ p ∈ entries, pyIn p.1 mdId = false) →
      fuzzyLoop answers mdId entries store k = ⟨store, k, [], none⟩ := by
  intro entries
  induction entries with
  | nil =>
    intro store k hnone
    rfl
  | cons e rest ih =>
    intro store k hnone
    obtain ⟨cid, cfg⟩ := e
    rw [show fuzzyLoop answers mdId ((cid, cfg) :: rest) store k =
        (if pyIn cid mdId then
          if answers k then
            ⟨registerAlias store cid mdId, k + 1, [cid], some cid⟩
          else
            let r := fuzzyLoop answers mdId rest store (k + 1)
            ⟨r.store, r.k, cid :: r.offered, r.matched⟩
        else fuzzyLoop answers mdId rest store k) from rfl]
    rw [if_neg (by simp [hnone (cid, cfg) (List.mem_cons_self _ _)])]
    exact ih store k (fun p hp => hnone p (List.mem_cons_of_mem _ hp))

/-- C4 fails as stated: for extractor id `unknownsite` with no exact, alias
or substring match in a store holding only profile `weird`, the resolution
pass of `src/main.py` does create an entry in the alias lookup table — it
registers `("unknownsite", "default")` in `aliased_extractors`. -/
theorem claim_C4_counterexample :
    resolveStep (fun _ => true) ⟨[("weird", ⟨"weird", [], ["-w"]⟩)], []⟩ 0
        ⟨"u", "file", [], some "unknownsite", none⟩ =
      some ⟨⟨[("weird", ⟨"weird", [], ["-w"]⟩)], [("unknownsite", "default")]⟩, 0, []⟩ ∧
    dictContains [("unknownsite", "default")] "unknownsite" = true := by
  constructor
  · decide
  · decide

/-- C4 amended: when the lowercased extractor id matches no profile id
exactly, is no known alias, and no profile id is a substring of it, no
prompt is issued, resolution maps the record to `"default"` so the default
profile's args are used, and no alias is added to any profile's alias set —
however the extractor id is recorded in the in-memory alias lookup table
mapped to `"default"` (`src/main.py` lines 227-228; this entry is not
persisted, since `Config.save` writes only the per-profile alias lists). -/
theorem claim_C4_amended (answers : Nat → Bool) (store : Store) (k : Nat)
    (md : Metadata) (mid : String) (ga da : List String) (vb : Bool)
    (hid : Metadata.id md = some mid)
    (herr : truthy md.error = false)
    (hex : dictContains store.extractor_configs mid = false)
    (hal : dictContains store.aliased_extractors mid = false)
    (hsub : ∀ p ∈ store.extractor_configs, pyIn p.1 mid = false) :
    resolveStep answers store k md =
      some ⟨⟨store.extractor_configs,
          dictInsert store.aliased_extractors mid "default"⟩, k, []⟩ ∧
    (dictLookup (dictInsert store.aliased_extractors mid "default") mid).getD mid =
      "default" ∧
    downloadArgs ga da
        ⟨store.extractor_configs, dictInsert store.aliased_extractors mid "default"⟩
        vb md "default" =
      some (ga ++ da ++ (md.options ++ (if vb then ["-v"] else []) ++ [md.url])) := by
  refine ⟨?_, ?_, ?_⟩
  · simp only [resolveStep, herr, hid, hex, hal, Bool.false_eq_true, if_false,
      fuzzyLoop_no_candidate answers mid store.extractor_configs store k hsub]
  · rw [dictLookup_insert_self]
    rfl
  · simp [downloadArgs]

theorem claim_C4_witness :
    (resolveStep (fun _ => true) ⟨[("weird", ⟨"weird", [], ["-w"]⟩)], []⟩ 0
        ⟨"u", "file", [], some "unknownsite", none⟩ =
      some ⟨⟨[("weird", ⟨"weird", [], ["-w"]⟩)], [("unknownsite", "default")]⟩, 0, []⟩) ∧
    (dictLookup [("unknownsite", "default")] "unknownsite").getD "unknownsite" =
      "default" ∧
    downloadArgs ["-g"] ["-d"]
        ⟨[("weird", ⟨"weird", [], ["-w"]⟩)], [("unknownsite", "default")]⟩ false
        ⟨"u", "file", [], some "unknownsite", none⟩ "default" =
      some (["-g"] ++ ["-d"] ++ ([] ++ (if false then ["-v"] else []) ++ ["u"])) := by
  have h := claim_C4_amended (fun _ => true)
    ⟨[("weird", ⟨"weird", [], ["-w"]⟩)], []⟩ 0
    ⟨"u", "file", [], some "unknownsite", none⟩ "unknownsite" ["-g"] ["-d"] false
    (by decide) (by decide) (by decide) (by decide) (by decide)
  exact ⟨h.1, h.2.1, h.2.2⟩

/-- C8: a record whose lowercased extractor id equals an existing profile id
resolves to that id (given the store invariant that the id is not also an
alias key), and one whose lowercased extractor id is an alias registered to
profile `p` resolves to `p`; in both cases the resolution step issues no
confirmation prompt (no candidate offered, prompt counter unchanged) and
leaves the profile store unchanged. -/
theorem claim_C8_theorem (answers : Nat → Bool) (store : Store) (k : Nat)
    (md : Metadata) (mid : String) (hid : Metadata.id md = some mid) :
    (dictContains store.extractor_configs mid = true →
      resolveStep answers store k md = some ⟨store, k, []⟩ ∧
      (dictContains store.aliased_extractors mid = false →
        getExtractorsList store [md] = [(md, some mid)])) ∧
    (∀ p, dictContains store.extractor_configs mid = false →
      dictLookup store.aliased_extractors mid = some p →
      resolveStep answers store k md = some ⟨store, k, []⟩ ∧
      getExtractorsList store [md] = [(md, some p)]) := by
  constructor
  · intro hex
    constructor
    · by_cases herr : truthy md.error = true
      · simp [resolveStep, herr]
      · have herr' : truthy md.error = false := Bool.eq_false_iff.mpr herr
        simp [resolveStep, herr', hid, hex]
    · intro hal
      simp [getExtractorsList, hid, dictLookup_eq_none_of_not_contains _ _ hal]
  · intro p hex hp
    constructor
    · by_cases herr : truthy md.error = true
      · simp [resolveStep, herr]
      · have herr' : truthy md.error = false := Bool.eq_false_iff.mpr herr
        have hal : dictContains store.aliased_extractors mid = true := by
          simp only [dictLookup, Option.map_eq_some'] at hp
          obtain ⟨w, hw, hw2⟩ := hp
          have hpred := @List.find?_some _ (fun q => q.1 == mid) w
            store.aliased_extractors hw
          simp only [dictContains, List.any_eq_true]
          exact ⟨w, List.mem_of_find?_eq_some hw, hpred⟩
        simp [resolveStep, herr', hid, hex, hal]
    · simp [getExtractorsList, hid, hp]

theorem claim_C8_witness :
    (resolveStep (fun _ => true)
        ⟨[("site", ⟨"site", ["al"], ["-s"]⟩)], [("al", "site")]⟩ 0
        ⟨"u", "file", [], some "Site", none⟩ =
      some ⟨⟨[("site", ⟨"site", ["al"], ["-s"]⟩)], [("al", "site")]⟩, 0, []⟩) ∧
    getExtractorsList ⟨[("site", ⟨"site", ["al"], ["-s"]⟩)], [("al", "site")]⟩
        [⟨"u", "file", [], some "Site", none⟩] =
      [(⟨"u", "file", [], some "Site", none⟩, some "site")] ∧
    (resolveStep (fun _ => true)
        ⟨[("site", ⟨"site", ["al"], ["-s"]⟩)], [("al", "site")]⟩ 0
        ⟨"v", "file", [], some "AL", none⟩ =
      some ⟨⟨[("site", ⟨"site", ["al"], ["-s"]⟩)], [("al", "site")]⟩, 0, []⟩) ∧
    getExtractorsList ⟨[("site", ⟨"site", ["al"], ["-s"]⟩)], [("al", "site")]⟩
        [⟨"v", "file", [], some "AL", none⟩] =
      [(⟨"v", "file", [], some "AL", none⟩, some "site")] := by
  have h1 := (claim_C8_theorem (fun _ => true)
    ⟨[("site", ⟨"site", ["al"], ["-s"]⟩)], [("al", "site")]⟩ 0
    ⟨"u", "file", [], some "Site", none⟩ "site" (by decide)).1 (by decide)
  have h2 := (claim_C8_theorem (fun _ => true)
    ⟨[("site", ⟨"site", ["al"], ["-s"]⟩)], [("al", "site")]⟩ 0
    ⟨"v", "file", [], some "AL", none⟩ "al" (by decide)).2 "site" (by decide) (by decide)
  exact ⟨h1.1, by
    have := h1.2 (by decide)
    simpa using this, h2.1, h2.2⟩

/-- C9: a record carrying a classification error (a non-empty error string —
the parser `parseOutput` never produces an empty one, as the third conjunct
shows) is skipped by resolution with the profile store, the prompt counter
and the offered-candidate list untouched, and the final loop of `Cli.main`
reports its error text instead of invoking the engine's download. -/
theorem claim_C9_theorem (answers : Nat → Bool) (store : Store) (k : Nat)
    (md : Metadata) (e : String) (x : Option String)
    (pairs : List (Metadata × Option String))
    (h : md.error = some e) (he : e ≠ "") :
    resolveStep answers store k md = some ⟨store, k, []⟩ ∧
    mainActions ((md, x) :: pairs) =
      MainAction.report md.extractor md.url e :: mainActions pairs ∧
    ∀ (output : String) (r : Option String × Option String),
      parseOutput output = some r → r.2 ≠ some "" := by
  have htr : truthy md.error = true := by
    simp [truthy, h, he]
  refine ⟨?_, ?_, ?_⟩
  · simp [resolveStep, htr]
  · simp [mainActions, htr, h, truthy, he]
  · intro output r hp
    simp only [parseOutput] at hp
    by_cases hs : pyStartsWith output "ERROR" = true
    · rw [if_pos hs] at hp
      cases hg : output.toList.get? 7 with
      | none =>
        simp only [hg] at hp
        exact absurd hp (by simp)
      | some c =>
        simp only [hg] at hp
        by_cases hc : c ≠ '['
        · rw [if_pos hc] at hp
          have hr : r = (none, some ⟨output.toList.drop 7⟩) :=
            (Option.some.injEq _ _ ▸ hp).symm
          have h7 : 7 < output.toList.length := by
            rcases List.get?_eq_some.mp hg with ⟨hlt, _⟩
            exact hlt
          have hdrop : output.toList.drop 7 ≠ [] := by
            rw [Ne, List.drop_eq_nil_iff]
            omega
          rw [hr]
          intro heq
          have : (⟨output.toList.drop 7⟩ : String) = "" := by
            simpa using heq
          exact hdrop (congrArg String.data this)
        · rw [if_neg hc] at hp
          cases hj : (output.toList.drop 8).findIdx? (fun d => d = ']') with
          | none =>
            simp only [hj] at hp
            exact absurd hp (by simp)
          | some j =>
            simp only [hj] at hp
            have hr : r = (some ⟨(output.toList.drop 8).take j⟩, none) :=
              (Option.some.injEq _ _ ▸ hp).symm
            rw [hr]
            simp
    · rw [if_neg hs] at hp
      have hr : r = (some output, none) :=
        (Option.some.injEq _ _ ▸ hp).symm
      rw [hr]
      simp

theorem claim_C9_witness :
    resolveStep (fun _ => true) ⟨[("site", ⟨"site", [], ["-s"]⟩)], []⟩ 0
        ⟨"u", "file", [], none, some "unable to classify"⟩ =
      some ⟨⟨[("site", ⟨"site", [], ["-s"]⟩)], []⟩, 0, []⟩ ∧
    mainActions [(⟨"u", "file", [], none, some "unable to classify"⟩, some "default")] =
      [MainAction.report none "u" "unable to classify"] ∧
    ∀ (output : String) (r : Option String × Option String),
      parseOutput output = some r → r.2 ≠ some "" := by
  have h := claim_C9_theorem (fun _ => true) ⟨[("site", ⟨"site", [], ["-s"]⟩)], []⟩ 0
    ⟨"u", "file", [], none, some "unable to classify"⟩ "unable to classify"
    (some "default") [] rfl (by decide)
  exact ⟨h.1, h.2.1, h.2.2⟩

theorem optTraverse_congr (f g : α → Option β) :
    ∀ l : List α, (∀ a ∈ l, f a = g a) → optTraverse f l = optTraverse g l := by
  intro l
  induction l with
  | nil =>
    intro h
    rfl
  | cons a as ih =>
    intro h
    simp only [optTraverse, h a (List.mem_cons_self a as),
      ih (fun b hb => h b (List.mem_cons_of_mem a hb))]

theorem lookup_foldl_insert_of_not_mem (u : String) :
    ∀ (l : List (List String × String)) (d0 : List (String × List String)),
      (∀ o, (o, u) ∉ l) →
      dictLookup (l.foldl (fun d p => dictInsert d p.2 p.1) d0) u = dictLookup d0 u := by
  intro l
  induction l with
  | nil =>
    intro d0 h
    rfl
  | cons q t ih =>
    intro d0 h
    have hq : u ≠ q.2 := fun he =>
      h q.1 (by rw [he, Prod.mk.eta]; exact List.mem_cons_self _ _)
    rw [List.foldl_cons, ih _ (fun o ho => h o (List.mem_cons_of_mem _ ho))]
    exact dictLookup_insert_ne d0 q.2 u q.1 hq

theorem lookup_foldl_insert_mem (u : String) (o : List String) :
    ∀ (l : List (List String × String)) (d0 : List (String × List String)),
      (o, u) ∈ l → (∀ o', (o', u) ∈ l → o' = o) →
      dictLookup (l.foldl (fun d p => dictInsert d p.2 p.1) d0) u = some o := by
  intro l
  induction l with
  | nil =>
    intro d0 hm _
    cases hm
  | cons q t ih =>
    intro d0 hm hfun
    rw [List.foldl_cons]
    by_cases ht : ∃ o'', (o'', u) ∈ t
    · obtain ⟨o'', ho''⟩ := ht
      have heq : o'' = o := hfun o'' (List.mem_cons_of_mem _ ho'')
      rw [heq] at ho''
      exact ih _ ho'' (fun o' h' => hfun o' (List.mem_cons_of_mem _ h'))
    · push_neg at ht
      have hqu : q = (o, u) := by
        rcases List.mem_cons.mp hm with h1 | h2
        · exact h1.symm
        · exact absurd h2 (ht o)
      rw [lookup_foldl_insert_of_not_mem u t _ ht, hqu]
      exact dictLookup_insert_self d0 u o

/-- C5 fails as stated: when the same URL appears on two lines with
different per-URL argument tokens, the batched strategy of `src/main.py`
keys the options by URL in the `url_opts` dict (the later line wins), so
both resulting Records carry the second line's tokens, while the
one-URL-at-a-time strategy keeps each line's own tokens. -/
theorem claim_C5_counterexample :
    batchedCreate (fun _ => "e") "file" ["-x u", "-y u"] ≠
      seqCreate (fun _ => "e") "file" ["-x u", "-y u"] := by
  decide

/-- C5 amended: given the same input lines and the same classification
answers, the batched strategy and the one-URL-at-a-time strategy produce
identical final Records (same url, source tag, argument tokens, extractor id
and error, in the same order) provided no URL occurs on two surviving lines
with different argument-token lists. -/
theorem claim_C5_amended (classify : String → String) (src : String)
    (lines : List String)
    (hfun : ∀ ps, parsedEntries lines = some ps →
      ∀ o₁ o₂ u, (o₁, u) ∈ ps → (o₂, u) ∈ ps → o₁ = o₂) :
    batchedCreate classify src lines = seqCreate classify src lines := by
  unfold batchedCreate seqCreate
  cases hps : parsedEntries lines with
  | none => rfl
  | some ps =>
    show (some ps).bind (batchedOf classify src) = (some ps).bind (seqOf classify src)
    show batchedOf classify src ps = seqOf classify src ps
    unfold batchedOf seqOf
    apply optTraverse_congr
    intro p hp
    have hmem : (p.1, p.2) ∈ ps := by
      rw [Prod.mk.eta]
      exact hp
    have hl : dictLookup (ps.foldl (fun d q => dictInsert d q.2 q.1) []) p.2 =
        some p.1 :=
      lookup_foldl_insert_mem p.2 p.1 ps [] hmem
        (fun o' h' => hfun ps hps o' p.1 p.2 h' hmem)
    rw [hl]
    rfl

theorem claim_C5_witness :
    batchedCreate (fun _ => "e") "file" ["-x u"] =
      seqCreate (fun _ => "e") "file" ["-x u"] := by
  apply claim_C5_amended
  intro ps hps o₁ o₂ u h1 h2
  rw [show parsedEntries ["-x u"] = some [(["-x"], "u")] from by decide] at hps
  injection hps with h
  subst h
  simp only [List.mem_singleton, Prod.mk.injEq] at h1 h2
  rw [h1.1, h2.1]

theorem toNat_ofNat_of_valid {n : Nat} (h : n.isValidChar) :
    (Char.ofNat n).toNat = n := by
  rw [Char.ofNat, dif_pos h]
  rfl

theorem lowerChar_idem (c : Char) : lowerChar (lowerChar c) = lowerChar c := by
  by_cases h : 65 ≤ c.toNat ∧ c.toNat ≤ 90
  · have h1 : lowerChar c = Char.ofNat (c.toNat + 32) := by
      rw [lowerChar, if_pos h]
    have hv : (c.toNat + 32).isValidChar := Or.inl (by omega)
    have ht : (Char.ofNat (c.toNat + 32)).toNat = c.toNat + 32 :=
      toNat_ofNat_of_valid hv
    rw [h1]
    unfold lowerChar
    rw [ht, if_neg (by omega)]
  · have h1 : lowerChar c = c := by
      rw [lowerChar, if_neg h]
    rw [h1]
    exact h1

theorem pyLower_idem (s : String) : pyLower (pyLower s) = pyLower s := by
  show String.mk ((s.data.map lowerChar).map lowerChar) = String.mk (s.data.map lowerChar)
  rw [List.map_map]
  exact congrArg String.mk (List.map_congr_left (fun c _ => lowerChar_idem c))

theorem isLowerStr_pyLower (s : String) : isLowerStr (pyLower s) :=
  pyLower_idem s

theorem isLowerStr_of_id (md : Metadata) (mid : String)
    (hid : Metadata.id md = some mid) : isLowerStr mid := by
  unfold Metadata.id at hid
  cases he : md.extractor with
  | none =>
    rw [he] at hid
    cases hid
  | some e =>
    rw [he] at hid
    simp only [] at hid
    by_cases hne : (e != "") = true
    · rw [if_pos hne] at hid
      injection hid with h
      rw [← h]
      exact isLowerStr_pyLower e
    · rw [if_neg hne] at hid
      cases hid

theorem add_alias_lower (cfg : ExtractorConfig) (a : String)
    (hc : isLowerStr cfg.id ∧ ∀ x ∈ cfg.aliases, isLowerStr x) (ha : isLowerStr a) :
    isLowerStr (cfg.add_alias a).id ∧ ∀ x ∈ (cfg.add_alias a).aliases, isLowerStr x := by
  unfold ExtractorConfig.add_alias
  by_cases hm : a ∈ cfg.aliases
  · rw [if_pos hm]
    exact hc
  · rw [if_neg hm]
    refine ⟨hc.1, ?_⟩
    intro x hx
    rcases List.mem_append.mp hx with h1 | h2
    · exact hc.2 x h1
    · rw [List.mem_singleton.mp h2]
      exact ha

theorem registerAlias_WF (store : Store) (cid mdId : String)
    (hw : StoreWF store) (hm : isLowerStr mdId) :
    StoreWF (registerAlias store cid mdId) := by
  constructor
  · intro p hp
    simp only [registerAlias, List.mem_map] at hp
    obtain ⟨q, hq, hpq⟩ := hp
    have hqw := hw.1 q hq
    by_cases hqc : q.1 = cid
    · rw [if_pos (by simpa using hqc)] at hpq
      rw [← hpq]
      exact ⟨hqw.1, (add_alias_lower q.2 mdId ⟨hqw.2.1, hqw.2.2⟩ hm).1,
        (add_alias_lower q.2 mdId ⟨hqw.2.1, hqw.2.2⟩ hm).2⟩
    · rw [if_neg (by simpa using hqc)] at hpq
      rw [← hpq]
      exact hqw
  · intro q hq
    rcases mem_dictInsert _ _ _ _ hq with h1 | h2
    · rw [h1]
      exact hm
    · exact hw.2 q h2

theorem fuzzyLoop_WF (answers : Nat → Bool) (mdId : String) (hm : isLowerStr mdId) :
    ∀ (entries : List (String × ExtractorConfig)) (store : Store) (k : Nat),
      StoreWF store → StoreWF (fuzzyLoop answers mdId entries store k).store := by
  intro entries
  induction entries with
  | nil =>
    intro store k hw
    exact hw
  | cons e rest ih =>
    intro store k hw
    obtain ⟨cid, cfg⟩ := e
    rw [show fuzzyLoop answers mdId ((cid, cfg) :: rest) store k =
        (if pyIn cid mdId then
          if answers k then
            ⟨registerAlias store cid mdId, k + 1, [cid], some cid⟩
          else
            let r := fuzzyLoop answers mdId rest store (k + 1)
            ⟨r.store, r.k, cid :: r.offered, r.matched⟩
        else fuzzyLoop answers mdId rest store k) from rfl]
    by_cases hs : pyIn cid mdId = true
    · rw [if_pos hs]
      by_cases ha : answers k = true
      · rw [if_pos ha]
        exact registerAlias_WF store cid mdId hw hm
      · rw [if_neg ha]
        exact ih store (k + 1) hw
    · rw [if_neg hs]
      exact ih store k hw

theorem resolveStep_WF (answers : Nat → Bool) (store : Store) (k : Nat)
    (md : Metadata) (r : StepResult) (hw : StoreWF store)
    (hr : resolveStep answers store k md = some r) : StoreWF r.store := by
  unfold resolveStep at hr
  by_cases herr : truthy md.error = true
  · rw [if_pos herr] at hr
    injection hr with h
    rw [← h]
    exact hw
  · rw [if_neg herr] at hr
    cases hid : Metadata.id md with
    | none =>
      simp only [hid] at hr
      cases hr
    | some mid =>
      simp only [hid] at hr
      have hml : isLowerStr mid := isLowerStr_of_id md mid hid
      by_cases hex : dictContains store.extractor_configs mid = true
      · rw [if_pos hex] at hr
        injection hr with h
        rw [← h]
        exact hw
      · rw [if_neg hex] at hr
        by_cases hal : dictContains store.aliased_extractors mid = true
        · rw [if_pos hal] at hr
          injection hr with h
          rw [← h]
          exact hw
        · rw [if_neg hal] at hr
          have hwf' : StoreWF (fuzzyLoop answers mid store.extractor_configs store k).store :=
            fuzzyLoop_WF answers mid hml store.extractor_configs store k hw
          have hs' : StoreWF (if dictContains
              (fuzzyLoop answers mid store.extractor_configs store k).store.aliased_extractors
              mid then (fuzzyLoop answers mid store.extractor_configs store k).store
            else { (fuzzyLoop answers mid store.extractor_configs store k).store with
              aliased_extractors := dictInsert
                (fuzzyLoop answers mid store.extractor_configs store k).store.aliased_extractors
                mid "default" }) := by
            by_cases hc : dictContains
                (fuzzyLoop answers mid store.extractor_configs store k).store.aliased_extractors
                mid = true
            · rw [if_pos hc]
              exact hwf'
            · rw [if_neg hc]
              refine ⟨hwf'.1, ?_⟩
              intro q hq
              rcases mem_dictInsert _ _ _ _ hq with h1 | h2
              · rw [h1]
                exact hml
              · exact hwf'.2 q h2
          injection hr with h
          rw [← h]
          exact hs'

theorem alias_fold_keys_lower (cid : String) :
    ∀ (as : List String) (d : List (String × String)),
      (∀ q ∈ d, isLowerStr q.1) → (∀ a ∈ as, isLowerStr a) →
      ∀ q ∈ as.foldl (fun d a => dictInsert d a cid) d, isLowerStr q.1 := by
  intro as
  induction as with
  | nil =>
    intro d hd _ q hq
    exact hd q hq
  | cons a t ih =>
    intro d hd ha q hq
    rw [List.foldl_cons] at hq
    refine ih _ ?_ (fun b hb => ha b (List.mem_cons_of_mem _ hb)) q hq
    intro q' hq'
    rcases mem_dictInsert _ _ _ _ hq' with h1 | h2
    · rw [h1]
      exact ha a (List.mem_cons_self _ _)
    · exact hd q' h2

theorem buildStore_WF (raws : List RawExtractor) : StoreWF (buildStore raws) := by
  unfold buildStore
  have hs0 : StoreWF (⟨[], []⟩ : Store) :=
    ⟨fun p hp => absurd hp (List.not_mem_nil p),
      fun q hq => absurd hq (List.not_mem_nil q)⟩
  generalize (⟨[], []⟩ : Store) = s0 at hs0 ⊢
  induction raws generalizing s0 with
  | nil => exact hs0
  | cons raw t ih =>
    rw [List.foldl_cons]
    apply ih
    by_cases hskip : (raw.id == "default" || raw.id == "global") = true
    · rw [if_pos hskip]
      exact hs0
    · rw [if_neg hskip]
      constructor
      · intro p hp
        rcases mem_dictInsert _ _ _ _ hp with h1 | h2
        · rw [h1]
          refine ⟨isLowerStr_pyLower raw.id, isLowerStr_pyLower raw.id, ?_⟩
          intro a ha
          simp only [ExtractorConfig.make] at ha
          rcases List.mem_map.mp ha with ⟨b, hb, hba⟩
          rw [← hba]
          exact isLowerStr_pyLower b
        · exact hs0.1 p h2
      · apply alias_fold_keys_lower
        · exact hs0.2
        · intro a ha
          simp only [ExtractorConfig.make] at ha
          rcases List.mem_map.mp ha with ⟨b, hb, hba⟩
          rw [← hba]
          exact isLowerStr_pyLower b

/-- C10: the lower-case invariant — construction of the store from the raw
config lower-cases every profile-dict key, profile id and alias string, and
each resolution step (the only pipeline operation that mutates the store)
preserves the invariant, since every learned alias key is the record's
lowercased extractor id; consequently the whole resolution pass preserves
it. -/
theorem claim_C10_theorem :
    (∀ raws : List RawExtractor, StoreWF (buildStore raws)) ∧
    (∀ (answers : Nat → Bool) (store : Store) (k : Nat) (md : Metadata)
      (r : StepResult), StoreWF store → resolveStep answers store k md = some r →
      StoreWF r.store) ∧
    (∀ (answers : Nat → Bool) (store : Store) (k : Nat) (mds : List Metadata)
      (res : Store × Nat), StoreWF store →
      resolveAll answers store k mds = some res → StoreWF res.1) := by
  refine ⟨buildStore_WF, resolveStep_WF, ?_⟩
  intro answers store k mds
  induction mds generalizing store k with
  | nil =>
    intro res hw hr
    unfold resolveAll at hr
    injection hr with h
    rw [← h]
    exact hw
  | cons md rest ih =>
    intro res hw hr
    unfold resolveAll at hr
    cases hstep : resolveStep answers store k md with
    | none =>
      rw [hstep] at hr
      cases hr
    | some r =>
      rw [hstep] at hr
      exact ih r.store r.k res (resolveStep_WF answers store k md r hw hstep) hr

theorem claim_C10_witness :
    StoreWF (buildStore [⟨"Weird", ["SomeAlias"], ["-w"]⟩]) ∧
    StoreWF (⟨[("weird", ⟨"weird", ["somealias", "weirdsite"], ["-w"]⟩)],
      [("somealias", "weird"), ("weirdsite", "weird")]⟩ : Store) := by
  have h1 := claim_C10_theorem.1 [⟨"Weird", ["SomeAlias"], ["-w"]⟩]
  have h2 := claim_C10_theorem.2.1 (fun _ => true)
    (buildStore [⟨"Weird", ["SomeAlias"], ["-w"]⟩]) 0
    ⟨"u", "file", [], some "WeirdSite", none⟩
    ⟨⟨[("weird", ⟨"weird", ["somealias", "weirdsite"], ["-w"]⟩)],
      [("somealias", "weird"), ("weirdsite", "weird")]⟩, 1, ["weird"]⟩
    h1 (by decide)
  exact ⟨h1, h2⟩
